import Mathlib
/-!
Verification development for the crawl scheduling and frontier-coordination core
of the firecrawlsimple repository (apps/api/src/services/queue-worker.ts,
apps/api/src/services/queue-service.ts, apps/api/src/scraper/.../playwright.ts).

The worker loop is embedded shallowly: pure data flow is translated directly,
each awaited collaborator call becomes an explicit outcome parameter (ok or
thrown), and the calls a run performs are recorded as an effect trace.  The
frontier store (crawl-redis.ts) is not part of the provided sources, so its
operations are modelled from the specification, as marked in their doc
comments; everything else is translated from the TypeScript source.
-/

/-- JS `String.prototype.includes` on explicit character lists:
`listIsPrefOf p s` is true when `p` is an initial segment of `s`. -/
def listIsPrefOf : List Char → List Char → Bool
  | [], _ => true
  | _ :: _, [] => false
  | p :: ps, c :: cs => p == c && listIsPrefOf ps cs

/-- JS `String.prototype.includes` on explicit character lists: does `pat`
occur as a contiguous run inside `s`? -/
def listContainsSub (pat s : List Char) : Bool :=
  match s with
  | [] => pat.isEmpty
  | _ :: rest => listIsPrefOf pat s || listContainsSub pat rest

/-- JS `url.includes(pat)` from the blocked-URL check in queue-worker.ts. -/
def strContains (s pat : String) : Bool :=
  listContainsSub pat.data s.data

/-- The denylist check of processJob (queue-worker.ts lines 155-160): the job
URL is blocked when it contains one of three host substrings. -/
def blockedURL (url : String) : Bool :=
  strContains url "researchhub.com" || strContains url "ebay.com" ||
    strContains url "youtube.com"

/-- Fixed message of the blocked-URL result (queue-worker.ts lines 166-167). -/
def blockedMsg : String :=
  "URL is blocked. Suspecious activity detected. Please contact hello@firecrawl.com if you believe this is an error."

/-- Fixed generic message of the catch-path result (queue-worker.ts line 320). -/
def genericErrMsg : String :=
  "Something went wrong... Contact help@mendable.ai or try again."

/-- `JOB_LOCK_EXTEND_INTERVAL` default (queue-worker.ts lines 38-39). -/
def jobLockExtendInterval : Nat := 15000

/-- `JOB_LOCK_EXTENSION_TIME` default (queue-worker.ts lines 40-41). -/
def jobLockExtensionTime : Nat := 60000

/-- `CANT_ACCEPT_CONNECTION_INTERVAL` default (queue-worker.ts lines 43-44). -/
def cantAcceptConnectionInterval : Nat := 2000

/-- `CONNECTION_MONITOR_INTERVAL` default (queue-worker.ts lines 45-46). -/
def connectionMonitorInterval : Nat := 10

/-- `gotJobInterval` default (queue-worker.ts line 47). -/
def gotJobInterval : Nat := 20

/-- BullMQ worker `lockDuration` option (queue-worker.ts line 103): 1 minute. -/
def lockDuration : Nat := 60000

/-- The fields of `job.data` read by the worker (queue-worker.ts). -/
structure JobData where
  url : String
  jobId : String
  team_id : String
  crawl_id : Option String
  enableAutoCrawl : Bool
  sitemapped : Bool
deriving Repr, DecidableEq

/-- The fields of a stored crawl record read by processJob (`sc`). -/
structure StoredCrawl where
  cancelled : Bool
  team_id : String
deriving Repr, DecidableEq

/-- One scraped document, as used by processJob (rawHtml and source URL). -/
structure Doc where
  rawHtml : String
  sourceURL : String
deriving Repr, DecidableEq

/-- Shape of the object processJob resolves with (success flag, docs, error). -/
structure ProcessResult where
  success : Bool
  docs : List Doc
  error : String
deriving Repr, DecidableEq

/-- Outcome of one awaited collaborator call: it either returned or threw. -/
inductive QOutcome
  | ok
  | thrown (e : String)
deriving Repr, DecidableEq

/-- Outcome of `startWebScraperPipeline` (queue-worker.ts line 191). -/
inductive PipelineOutcome
  | ok (success : Bool) (message : String) (docs : List Doc)
  | thrown (e : String)
deriving Repr, DecidableEq

/-- One observable call performed by the worker, recorded in program order. -/
inductive Effect
  | getJobCounts
  | updateProgress
  | scrape
  | moveToCompleted
  | moveToFailed
  | addCrawlJobDone (crawlId jobId : String)
  | lockAttempt (crawlId url : String) (won : Bool)
  | enqueueChild (url newId : String)
  | addCrawlJob (crawlId newId : String)
  | finishCrawl (crawlId : String)
  | addJobPriority (teamId jobId : String)
  | deleteJobPriority (teamId jobId : String)
  | setRenewTimer (periodMs ttlMs : Nat)
  | clearRenewTimer
  | sleep (ms : Nat)
  | getNextJob
deriving Repr, DecidableEq

/-- Shared frontier-store state: claimed (crawl, URL) pairs, each crawl's job
set and its done subset, all keyed explicitly. -/
structure FrontierStore where
  claimed : List (String × String)
  jobs : List (String × String)
  done : List (String × String)
deriving Repr, DecidableEq

/-- Modelled from the spec: `lockURL` lives in apps/api/src/lib/crawl-redis.ts,
which is not among the provided sources.  Spec 4.1 `claimURL`: atomically
records the URL as claimed for this crawl if and only if it was not already
claimed, and returns whether the calling worker won the claim. -/
def lockURL (crawlId url : String) (s : FrontierStore) : Bool × FrontierStore :=
  if (crawlId, url) ∈ s.claimed then (false, s)
  else (true, { s with claimed := (crawlId, url) :: s.claimed })

/-- Modelled from the spec: `addCrawlJob` (`recordJobMembership`) from
crawl-redis.ts, absent from the provided sources: adds a job id to the
crawl's job set. -/
def addCrawlJob (crawlId jobId : String) (s : FrontierStore) : FrontierStore :=
  { s with jobs := (crawlId, jobId) :: s.jobs }

/-- Modelled from the spec: `addCrawlJobDone` (`recordJobDone`) from
crawl-redis.ts, absent from the provided sources: adds a job id to the
crawl's done subset. -/
def addCrawlJobDone (crawlId jobId : String) (s : FrontierStore) : FrontierStore :=
  { s with done := (crawlId, jobId) :: s.done }

/-- An arbitrary interleaving of atomic claim attempts for one (crawl, URL)
pair: each listed worker performs one `lockURL` call, in schedule order, and
the list of (worker, returned flag) pairs is collected. -/
def runClaims (c u : String) (ws : List Nat) (s : FrontierStore) :
    List (Nat × Bool) × FrontierStore :=
  match ws with
  | [] => ([], s)
  | w :: rest =>
    let p := lockURL c u s
    let q := runClaims c u rest p.2
    ((w, p.1) :: q.1, q.2)

/-- The attempts of a claim schedule that returned true. -/
def winners (rs : List (Nat × Bool)) : List (Nat × Bool) :=
  rs.filter (fun p => p.2)

/-- The collaborator outcomes and store reads of one `processJob` run: each
awaited external call of queue-worker.ts lines 143-325 appears once, in
source order. -/
structure PJEnv where
  countsStart : QOutcome
  countsBlock : QOutcome
  blockedMove : QOutcome
  pipeline : PipelineOutcome
  crawl : StoredCrawl
  links : List String
  freshIds : List String
  crawlSectionFault : QOutcome
  countsDone : QOutcome
  countsFail : QOutcome
deriving Repr, DecidableEq

/-- The catch block of processJob (queue-worker.ts lines 281-324): after
logging, it queries job counts (line 305; this call sits inside the catch
handler, so a throw there rejects processJob itself) and then resolves with
the fixed generic failure result. -/
def catchBlock (env : PJEnv) : Except String ProcessResult × List Effect :=
  match env.countsFail with
  | .thrown e => (.error e, [Effect.getJobCounts])
  | .ok => (.ok ⟨false, [], genericErrMsg⟩, [Effect.getJobCounts])

/-- The link-expansion loop of processJob (queue-worker.ts lines 232-261):
for each extracted link, attempt `lockURL`; on a win, enqueue a child job
under a fresh id and record it in the crawl's job set. -/
def expandLinks (crawlId : String) (links freshIds : List String)
    (s : FrontierStore) : List Effect × FrontierStore :=
  match links with
  | [] => ([], s)
  | link :: rest =>
    let p := lockURL crawlId link s
    if p.1 then
      let newId := freshIds.headD "fresh-id"
      let s2 := addCrawlJob crawlId newId p.2
      let q := expandLinks crawlId rest freshIds.tail s2
      (Effect.lockAttempt crawlId link true :: Effect.enqueueChild link newId ::
        Effect.addCrawlJob crawlId newId :: q.1, q.2)
    else
      let q := expandLinks crawlId rest freshIds p.2
      (Effect.lockAttempt crawlId link false :: q.1, q.2)

/-- The crawl-handling section of processJob (queue-worker.ts lines 217-266):
mark the worker's own job done, then (only when auto-crawl is enabled, the
job was not sitemapped, and the crawl is not cancelled) expand links, then
run the completion check (`finishCrawl`).  The first component is `some e`
when a store access in this section threw `e`. -/
def crawlSection (job : JobData) (env : PJEnv) (cid : String)
    (s : FrontierStore) : Option String × List Effect × FrontierStore :=
  let s1 := addCrawlJobDone cid job.jobId s
  match env.crawlSectionFault with
  | .thrown e => (some e, [Effect.addCrawlJobDone cid job.jobId], s1)
  | .ok =>
    let q :=
      if job.enableAutoCrawl && !job.sitemapped && !env.crawl.cancelled then
        expandLinks cid env.links env.freshIds s1
      else ([], s1)
    (none, Effect.addCrawlJobDone cid job.jobId :: q.1 ++ [Effect.finishCrawl cid],
      q.2)

/-- The try block of processJob (queue-worker.ts lines 183-280): report
progress, run the scrape pipeline, throw on a pipeline-level failure, handle
the crawl section when the job belongs to a crawl, and query job counts
(line 270, still inside the try).  Any throw lands in `catchBlock`. -/
def tryBlock (job : JobData) (env : PJEnv) (s : FrontierStore) :
    Except String ProcessResult × List Effect × FrontierStore :=
  let acc := [Effect.updateProgress, Effect.scrape]
  match env.pipeline with
  | .thrown _ =>
    let q := catchBlock env
    (q.1, acc ++ q.2, s)
  | .ok success message docs =>
    if !success then
      let q := catchBlock env
      (q.1, acc ++ q.2, s)
    else
      match job.crawl_id with
      | some cid =>
        let cs := crawlSection job env cid s
        match cs.1 with
        | some _ =>
          let q := catchBlock env
          (q.1, acc ++ cs.2.1 ++ q.2, cs.2.2)
        | none =>
          match env.countsDone with
          | .thrown _ =>
            let q := catchBlock env
            (q.1, acc ++ cs.2.1 ++ q.2, cs.2.2)
          | .ok =>
            (.ok ⟨success, docs, message⟩,
              acc ++ cs.2.1 ++ [Effect.getJobCounts], cs.2.2)
      | none =>
        match env.countsDone with
        | .thrown _ =>
          let q := catchBlock env
          (q.1, acc ++ q.2, s)
        | .ok => (.ok ⟨success, docs, message⟩, acc ++ [Effect.getJobCounts], s)

/-- Embedding of `processJob` (queue-worker.ts lines 143-325).  The initial
job-counts query (line 147) and the whole blocked-URL branch (lines 155-181)
run before the try block, so a throw there rejects processJob. -/
def processJob (job : JobData) (env : PJEnv) (s : FrontierStore) :
    Except String ProcessResult × List Effect × FrontierStore :=
  match env.countsStart with
  | .thrown e => (.error e, [Effect.getJobCounts], s)
  | .ok =>
    if blockedURL job.url then
      match env.countsBlock with
      | .thrown e => (.error e, [Effect.getJobCounts, Effect.getJobCounts], s)
      | .ok =>
        match env.blockedMove with
        | .thrown e =>
          (.error e,
            [Effect.getJobCounts, Effect.getJobCounts, Effect.moveToCompleted], s)
        | .ok =>
          (.ok ⟨false, [], blockedMsg⟩,
            [Effect.getJobCounts, Effect.getJobCounts, Effect.moveToCompleted], s)
    else
      let q := tryBlock job env s
      (q.1, Effect.getJobCounts :: q.2.1, q.2.2)

/-- Collaborator outcomes of one `processJobInternal` run: the processJob
outcomes plus the two terminal queue transitions. -/
structure PJIEnv where
  pj : PJEnv
  moveCompleted : QOutcome
  moveFailed : QOutcome
deriving Repr, DecidableEq

/-- Embedding of `processJobInternal` (queue-worker.ts lines 65-88): start the
lock-renewal interval, add the tenant's job priority, run processJob; on a
resolved result move the job to completed (a throw there is swallowed by the
inner empty catch, line 77 - so `moveCompleted`'s outcome never changes the
result); on a rejected processJob move the job to failed; the finally block
(lines 82-85) deletes the job priority and clears the interval on every path.
The result is `.error` exactly when `moveToFailed` itself threw, in which
case processJobInternal rejects after its finally block runs. -/
def processJobInternal (job : JobData) (env : PJIEnv) (s : FrontierStore) :
    Except String (Option String) × List Effect × FrontierStore :=
  let pre := [Effect.setRenewTimer jobLockExtendInterval jobLockExtensionTime,
              Effect.addJobPriority job.team_id job.jobId]
  let fin := [Effect.deleteJobPriority job.team_id job.jobId,
              Effect.clearRenewTimer]
  match processJob job env.pj s with
  | (.ok _, es, s1) =>
    (.ok none, pre ++ es ++ [Effect.moveToCompleted] ++ fin, s1)
  | (.error e, es, s1) =>
    match env.moveFailed with
    | .ok => (.ok (some e), pre ++ es ++ [Effect.moveToFailed] ++ fin, s1)
    | .thrown e2 => (.error e2, pre ++ es ++ [Effect.moveToFailed] ++ fin, s1)

/-- The inputs one iteration of the `workerFun` loop (queue-worker.ts lines
112-133) reads: the shutdown flag, the admission decision, and the job the
queue hands over (with its collaborator outcomes), if any. -/
structure TickInput where
  shuttingDown : Bool
  canAccept : Bool
  next : Option (JobData × PJIEnv)

/-- How one `workerFun` iteration ended. -/
inductive TickOutcome
  | shutdown
  | denied
  | idle
  | processed (r : Except String (Option String))

/-- Embedding of one iteration of the `workerFun` polling loop (queue-worker.ts
lines 112-133): stop when shutting down; when admission is denied sleep the
fixed back-off interval without touching the queue; otherwise poll the queue
and either process the received job once or sleep the idle interval. -/
def workerTick (i : TickInput) (s : FrontierStore) :
    List Effect × TickOutcome × FrontierStore :=
  if i.shuttingDown then ([], .shutdown, s)
  else if !i.canAccept then
    ([Effect.sleep cantAcceptConnectionInterval], .denied, s)
  else
    match i.next with
    | none => ([Effect.getNextJob, Effect.sleep connectionMonitorInterval], .idle, s)
    | some (job, env) =>
      let q := processJobInternal job env s
      (Effect.getNextJob :: q.2.1 ++ [Effect.sleep gotJobInterval],
        .processed q.1, q.2.2)

/-- A run of consecutive `workerFun` iterations with given per-tick inputs. -/
def runTicks (inputs : List TickInput) (s : FrontierStore) :
    List Effect × FrontierStore :=
  match inputs with
  | [] => ([], s)
  | i :: rest =>
    let q := workerTick i s
    let r := runTicks rest q.2.2
    (q.1 ++ r.1, r.2)

/-- The effects processJob itself can emit: it never touches the renewal
timer, the priority counters, the failed transition, or the polling loop. -/
def pjEmittable : Effect → Bool
  | .getJobCounts | .updateProgress | .scrape | .moveToCompleted => true
  | .addCrawlJobDone _ _ | .lockAttempt _ _ _ | .enqueueChild _ _ => true
  | .addCrawlJob _ _ | .finishCrawl _ => true
  | _ => false

/-- Effects of the link-expansion loop: claims, enqueues, job-set additions. -/
def isExpansionEff : Effect → Bool
  | .lockAttempt _ _ _ | .enqueueChild _ _ | .addCrawlJob _ _ => true
  | _ => false

def isAddPrio : Effect → Bool
  | .addJobPriority _ _ => true
  | _ => false

def isDelPrio : Effect → Bool
  | .deleteJobPriority _ _ => true
  | _ => false

def isMoveFailed : Effect → Bool
  | .moveToFailed => true
  | _ => false

/-- The frontier-store operations that matter for completion detection of one
crawl, in the order the workers issue them. -/
inductive CrawlEvent
  | addJob (j : String)
  | markDone (j : String)
  | check
deriving Repr, DecidableEq

/-- One crawl's job set and done subset, as held by the frontier store. -/
structure CrawlSetState where
  jobs : List String
  done : List String
deriving Repr, DecidableEq

/-- Effect of one completion-relevant store operation on the crawl's sets. -/
def stepEvent (st : CrawlSetState) : CrawlEvent → CrawlSetState
  | .addJob j => { st with jobs := j :: st.jobs }
  | .markDone j => { st with done := j :: st.done }
  | .check => st

/-- The crawl's sets after a sequence of store operations. -/
def stateAfter (st : CrawlSetState) (tr : List CrawlEvent) : CrawlSetState :=
  tr.foldl stepEvent st

/-- Modelled from the spec: `isCrawlFinished` / the check inside `finishCrawl`
live in apps/api/src/lib/crawl-redis.ts, which is not among the provided
sources.  Spec 4.1/5: the crawl is reported finished iff every job ever added
to the crawl's job set is also in its done subset (the done-set/job-set
comparison). -/
def crawlFinishedB (st : CrawlSetState) : Bool :=
  st.jobs.all (fun j => st.done.contains j)

/-- The jobs added to the job set over the course of a trace. -/
def addedIn (tr : List CrawlEvent) : List String :=
  tr.filterMap (fun e => match e with
    | CrawlEvent.addJob j => some j
    | _ => none)

def isAddJob : CrawlEvent → Bool
  | .addJob _ => true
  | _ => false

def isCheck : CrawlEvent → Bool
  | .check => true
  | _ => false

/-- Every completion check in the list happens after every job addition. -/
def addsPrecedeChecks : List CrawlEvent → Bool
  | [] => true
  | CrawlEvent.check :: rest =>
    rest.all (fun e => !isAddJob e) && addsPrecedeChecks rest
  | _ :: rest => addsPrecedeChecks rest

/-- Projection of a worker's effect trace onto the completion-relevant store
operations of the crawl. -/
def crawlEventsOf (es : List Effect) : List CrawlEvent :=
  es.filterMap (fun e => match e with
    | Effect.addCrawlJobDone _ j => some (CrawlEvent.markDone j)
    | Effect.addCrawlJob _ j => some (CrawlEvent.addJob j)
    | Effect.finishCrawl _ => some CrawlEvent.check
    | _ => none)

/-- `zs` is an order-preserving merge of the two workers' operation lists. -/
inductive IsInterleaving {α : Type} : List α → List α → List α → Prop
  | nil : IsInterleaving [] [] []
  | left {x : α} {xs ys zs : List α} :
      IsInterleaving xs ys zs → IsInterleaving (x :: xs) ys (x :: zs)
  | right {y : α} {xs ys zs : List α} :
      IsInterleaving xs ys zs → IsInterleaving xs (y :: ys) (y :: zs)

/-- Claim C2 as stated, over an operation trace: whenever a completion check
reports finished, every job ever added to the job set over the whole trace
(including additions still pending at check time) is already in the done
subset at check time. -/
def C2TraceProperty (st : CrawlSetState) (tr : List CrawlEvent) : Prop :=
  ∀ i, tr.get? i = some CrawlEvent.check →
    crawlFinishedB (stateAfter st (tr.take i)) = true →
    ∀ j, j ∈ addedIn tr → (stateAfter st (tr.take i)).done.contains j = true

/-- Negation of `isExpansionEff`: the effect is not a claim attempt, not a
child enqueue and not a job-set addition. -/
def notExpansion (e : Effect) : Bool := !isExpansionEff e

/-- Number of child enqueues for URL `v` in an effect list. -/
def enqueueCount (v : String) (es : List Effect) : Nat :=
  es.countP (fun e => match e with
    | Effect.enqueueChild w _ => w == v
    | _ => false)

/-- Number of winning claim attempts for (crawl `cid`, URL `v`). -/
def winCount (cid v : String) (es : List Effect) : Nat :=
  es.countP (fun e => match e with
    | Effect.lockAttempt c2 w b => c2 == cid && (w == v && b)
    | _ => false)

/-- Outcome of `JSON.parse` on the rendering service's 200-response body
(playwright.ts lines 331-354): either the parsed fields or a parse error. -/
inductive JsonParseOutcome
  | parsed (content : Option String) (statusCode : Option Nat)
      (pageError : Option String)
  | parseFail (msg : String)
deriving Repr, DecidableEq

/-- Outcome of the axios POST to the rendering service (playwright.ts lines
300-314): a 200 response with a raw body to parse; a 2xx-but-not-200
response (axios resolves, the non-200 branch runs on the raw string body);
a timeout (`ECONNABORTED`); an error response; a connection error with no
response; or another error. -/
inductive PlaywrightOutcome
  | ok200 (parse : JsonParseOutcome)
  | okNon200 (status : Nat)
  | econnaborted
  | errResponse (status : Nat) (msg : String)
  | errRequest (code msg : String)
  | errOther (msg : String)
deriving Repr, DecidableEq

/-- The typed result scrapeWithPlaywright is supposed to resolve with. -/
structure ScrapeResult where
  content : String
  pageStatusCode : Option Nat
  pageError : Option String
deriving Repr, DecidableEq

/-- A JavaScript runtime error escaping a function (promise rejection). -/
inductive JsRuntimeError
  | referenceError (name : String)
deriving Repr, DecidableEq

/-- Embedding of `scrapeWithPlaywright` (playwright.ts lines 277-388).  On the
`ECONNABORTED` (timeout) path the catch block evaluates the template literal
`universalTimeout + waitParam` (line 359), but `waitParam` is `const`-declared
inside the try block (line 295) and is not in scope in the catch block, so
that path throws a ReferenceError instead of resolving; every other path
resolves with a typed result, the failure ones with empty content and the
status/error detail in pageStatusCode/pageError. -/
def scrapeWithPlaywright : PlaywrightOutcome → Except JsRuntimeError ScrapeResult
  | .ok200 (.parsed c st er) => .ok ⟨c.getD "", st, er⟩
  | .ok200 (.parseFail m) => .ok ⟨"", none, some m⟩
  | .okNon200 _ => .ok ⟨"", none, none⟩
  | .econnaborted => .error (.referenceError "waitParam")
  | .errResponse _ m => .ok ⟨"", none, some m⟩
  | .errRequest _ _ => .ok ⟨"", none, some "No response from Playwright service"⟩
  | .errOther m => .ok ⟨"", none, some m⟩

/-- Whether a scrapeWithPlaywright run resolved (rather than rejecting). -/
def scrapeResolves : Except JsRuntimeError ScrapeResult → Bool
  | .ok _ => true
  | .error _ => false

/-- An empty frontier store. -/
def s0Empty : FrontierStore := { claimed := [], jobs := [], done := [] }

/-- A concrete crawl job: crawl "c", job id "A", auto-crawl enabled. -/
def jbA : JobData :=
  { url := "https://example.com/", jobId := "A", team_id := "t",
    crawl_id := some "c", enableAutoCrawl := true, sitemapped := false }

/-- A live (not cancelled) crawl record. -/
def crawlOkA : StoredCrawl := { cancelled := false, team_id := "t" }

/-- Collaborator outcomes for a fully successful run of jbA that extracts one
link and enqueues one child under the fresh id "n1". -/
def envA : PJEnv :=
  { countsStart := .ok, countsBlock := .ok, blockedMove := .ok,
    pipeline := .ok true ""
      [{ rawHtml := "<html>", sourceURL := "https://example.com/" }],
    crawl := crawlOkA, links := ["https://example.com/u"], freshIds := ["n1"],
    crawlSectionFault := .ok, countsDone := .ok, countsFail := .ok }

/-- Store at the start of jbA's run: job "A" is the only member of crawl "c"
and nothing is done yet. -/
def s0A : FrontierStore := { claimed := [], jobs := [("c", "A")], done := [] }

/-- Worker A's completion-relevant operations interleaved with a second
worker's completion check placed right after A marked its own job done. -/
def trC2 : List CrawlEvent :=
  [CrawlEvent.markDone "A", CrawlEvent.check, CrawlEvent.addJob "n1",
   CrawlEvent.check]

/-- Crawl sets at the start of the C2 scenario: job set {A}, nothing done. -/
def stC2 : CrawlSetState := { jobs := ["A"], done := [] }

/-- A trace in which the added child job is eventually marked done. -/
def trDoneC2 : List CrawlEvent :=
  [CrawlEvent.markDone "A", CrawlEvent.addJob "n1", CrawlEvent.markDone "n1"]

/-- A concrete denylisted job (its URL contains "youtube.com"). -/
def jbBlocked : JobData :=
  { url := "https://youtube.com/watch", jobId := "B1", team_id := "t",
    crawl_id := none, enableAutoCrawl := false, sitemapped := false }

/-- Collaborator outcomes in which nothing throws. -/
def envOk : PJEnv :=
  { countsStart := .ok, countsBlock := .ok, blockedMove := .ok,
    pipeline := .ok true "" [], crawl := crawlOkA, links := [], freshIds := [],
    crawlSectionFault := .ok, countsDone := .ok, countsFail := .ok }

def envOkI : PJIEnv := { pj := envOk, moveCompleted := .ok, moveFailed := .ok }

/-- A concrete plain (non-blocked, non-crawl) job. -/
def jbPlain : JobData :=
  { url := "https://example.com/", jobId := "P1", team_id := "t",
    crawl_id := none, enableAutoCrawl := false, sitemapped := false }

/-- Outcomes in which the initial telemetry call (getJobCounts at
queue-worker.ts line 147) throws. -/
def envCountsThrow : PJEnv := { envOk with countsStart := .thrown "ECONNREFUSED" }

def envCountsThrowI : PJIEnv :=
  { pj := envCountsThrow, moveCompleted := .ok, moveFailed := .ok }

/-- A cancelled crawl record. -/
def crawlCancelled : StoredCrawl := { cancelled := true, team_id := "t" }

/-- jbA's outcomes, but against a crawl cancelled before the check point. -/
def envCancelled : PJEnv := { envA with crawl := crawlCancelled }

def envCancelledI : PJIEnv :=
  { pj := envCancelled, moveCompleted := .ok, moveFailed := .ok }

/-- A tick on which admission is denied and shutdown is not requested. -/
def deniedTick : TickInput :=
  { shuttingDown := false, canAccept := false, next := none }

theorem lockURL_mem_false (c u : String) (s : FrontierStore)
    (h : (c, u) ∈ s.claimed) : lockURL c u s = (false, s) := by
  simp [lockURL, h]

theorem lockURL_not_mem (c u : String) (s : FrontierStore)
    (h : (c, u) ∉ s.claimed) :
    lockURL c u s = (true, { s with claimed := (c, u) :: s.claimed }) := by
  simp [lockURL, h]

theorem runClaims_all_lose (c u : String) (ws : List Nat) (s : FrontierStore)
    (h : (c, u) ∈ s.claimed) : winners (runClaims c u ws s).1 = [] := by
  induction ws generalizing s with
  | nil => simp [runClaims, winners]
  | cons w rest ih =>
    simp only [runClaims, lockURL_mem_false c u s h]
    simpa [winners] using ih s h

theorem catchBlock_effects (env : PJEnv) :
    (catchBlock env).2 = [Effect.getJobCounts] := by
  cases h : env.countsFail <;> simp [catchBlock, h]

theorem expandLinks_all_emittable (cid : String) (links freshIds : List String)
    (s : FrontierStore) :
    ((expandLinks cid links freshIds s).1.all pjEmittable) = true := by
  induction links generalizing freshIds s with
  | nil => simp [expandLinks]
  | cons link rest ih =>
    simp only [expandLinks]
    split
    · simp [pjEmittable, ih]
    · simp [pjEmittable, ih]

theorem crawlSection_all_emittable (job : JobData) (env : PJEnv) (cid : String)
    (s : FrontierStore) :
    ((crawlSection job env cid s).2.1.all pjEmittable) = true := by
  cases hf : env.crawlSectionFault with
  | thrown e => simp [crawlSection, hf, pjEmittable]
  | ok =>
    simp only [crawlSection, hf]
    split
    · simp [pjEmittable, expandLinks_all_emittable]
    · simp [pjEmittable]

theorem tryBlock_all_emittable (job : JobData) (env : PJEnv) (s : FrontierStore) :
    ((tryBlock job env s).2.1.all pjEmittable) = true := by
  cases hp : env.pipeline with
  | thrown e => simp [tryBlock, hp, catchBlock_effects, pjEmittable]
  | ok success message docs =>
    simp only [tryBlock, hp]
    split
    · simp [catchBlock_effects, pjEmittable]
    · cases hc : job.crawl_id with
      | none =>
        cases hd : env.countsDone <;>
          simp [hd, catchBlock_effects, pjEmittable]
      | some cid =>
        cases hcs : (crawlSection job env cid s).1 with
        | some e =>
          simp [hcs, catchBlock_effects, pjEmittable,
            crawlSection_all_emittable]
        | none =>
          cases hd : env.countsDone <;>
            simp [hcs, hd, catchBlock_effects, pjEmittable,
              crawlSection_all_emittable]

theorem processJob_all_emittable (job : JobData) (env : PJEnv)
    (s : FrontierStore) :
    ((processJob job env s).2.1.all pjEmittable) = true := by
  cases h0 : env.countsStart with
  | thrown e => simp [processJob, h0, pjEmittable]
  | ok =>
    simp only [processJob, h0]
    split
    · cases h1 : env.countsBlock with
      | thrown e => simp [h1, pjEmittable]
      | ok => cases h2 : env.blockedMove <;> simp [h2, pjEmittable]
    · simp [pjEmittable, tryBlock_all_emittable]

theorem countP_zero_of_emittable {es : List Effect}
    (h : es.all pjEmittable = true) {p : Effect → Bool}
    (hp : ∀ e, pjEmittable e = true → p e = false) : es.countP p = 0 := by
  rw [List.countP_eq_zero]
  intro a ha
  simp [hp a (List.all_eq_true.mp h a ha)]

theorem not_mem_of_emittable {es : List Effect}
    (h : es.all pjEmittable = true) {e : Effect}
    (he : pjEmittable e = false) : e ∉ es := by
  intro hmem
  have := List.all_eq_true.mp h e hmem
  rw [this] at he
  exact Bool.noConfusion he

/-- Structural description of a processJobInternal run: the renewal timer and
the priority increment come first, then processJob's own effects, then exactly
one terminal queue transition, then the finally block (priority decrement,
timer clear); the transition is moveToFailed exactly when processJob threw. -/
theorem processJobInternal_effects (job : JobData) (env : PJIEnv)
    (s : FrontierStore) :
    ∃ term : Effect,
      (term = Effect.moveToCompleted ∨ term = Effect.moveToFailed)
      ∧ (processJobInternal job env s).2.1
          = Effect.setRenewTimer jobLockExtendInterval jobLockExtensionTime ::
            Effect.addJobPriority job.team_id job.jobId ::
            (processJob job env.pj s).2.1 ++ [term] ++
            [Effect.deleteJobPriority job.team_id job.jobId,
              Effect.clearRenewTimer]
      ∧ (term = Effect.moveToFailed ↔
          ∃ e, (processJob job env.pj s).1 = Except.error e) := by
  rcases hp : processJob job env.pj s with ⟨r, es, s1⟩
  cases r with
  | ok v =>
    refine ⟨Effect.moveToCompleted, Or.inl rfl, ?_, ?_⟩
    · simp [processJobInternal, hp]
    · simp
  | error e =>
    cases hm : env.moveFailed with
    | ok =>
      refine ⟨Effect.moveToFailed, Or.inr rfl, ?_, ?_⟩
      · simp [processJobInternal, hp, hm]
      · simp
    | thrown e2 =>
      refine ⟨Effect.moveToFailed, Or.inr rfl, ?_, ?_⟩
      · simp [processJobInternal, hp, hm]
      · simp

theorem crawlEventsOf_append (a b : List Effect) :
    crawlEventsOf (a ++ b) = crawlEventsOf a ++ crawlEventsOf b := by
  simp [crawlEventsOf]

theorem stateAfter_jobs (tr : List CrawlEvent) (st : CrawlSetState) :
    (stateAfter st tr).jobs = (addedIn tr).reverse ++ st.jobs := by
  induction tr generalizing st with
  | nil => simp [stateAfter, addedIn]
  | cons e rest ih =>
    cases e with
    | addJob j =>
      rw [show stateAfter st (CrawlEvent.addJob j :: rest)
            = stateAfter ⟨j :: st.jobs, st.done⟩ rest from rfl, ih]
      simp [addedIn]
    | markDone j =>
      rw [show stateAfter st (CrawlEvent.markDone j :: rest)
            = stateAfter ⟨st.jobs, j :: st.done⟩ rest from rfl, ih]
      simp [addedIn]
    | check =>
      rw [show stateAfter st (CrawlEvent.check :: rest)
            = stateAfter st rest from rfl, ih]
      simp [addedIn]

/-- Snapshot correctness of the modelled completion check: when it reports
finished, every job added so far is in the done subset. -/
theorem crawlFinished_snapshot (st : CrawlSetState) (tr : List CrawlEvent)
    (h : crawlFinishedB (stateAfter st tr) = true) :
    ∀ j, j ∈ addedIn tr → (stateAfter st tr).done.contains j = true := by
  intro j hj
  have hjobs : j ∈ (stateAfter st tr).jobs := by
    rw [stateAfter_jobs]
    exact List.mem_append.mpr (Or.inl (List.mem_reverse.mpr hj))
  exact List.all_eq_true.mp h j hjobs

/-- Completeness of the modelled completion check: once every initial job
and every job added over the trace is in the done subset, the check reports
finished. -/
theorem crawlFinished_complete (st : CrawlSetState) (tr : List CrawlEvent)
    (h0 : ∀ j, j ∈ st.jobs → (stateAfter st tr).done.contains j = true)
    (h1 : ∀ j, j ∈ addedIn tr → (stateAfter st tr).done.contains j = true) :
    crawlFinishedB (stateAfter st tr) = true := by
  simp only [crawlFinishedB]
  rw [List.all_eq_true]
  intro j hj
  rw [stateAfter_jobs] at hj
  rcases List.mem_append.mp hj with h | h
  · exact h1 j (List.mem_reverse.mp h)
  · exact h0 j h

theorem addsPrecedeChecks_append {xs ys : List CrawlEvent}
    (hx : xs.all (fun e => !isCheck e) = true)
    (hy : addsPrecedeChecks ys = true) :
    addsPrecedeChecks (xs ++ ys) = true := by
  induction xs with
  | nil => simpa using hy
  | cons x rest ih =>
    have hxx := List.all_eq_true.mp hx x (by simp)
    have hrest : rest.all (fun e => !isCheck e) = true := by
      rw [List.all_eq_true]
      intro a ha
      exact List.all_eq_true.mp hx a (by simp [ha])
    cases x with
    | addJob j => simpa [addsPrecedeChecks] using ih hrest
    | markDone j => simpa [addsPrecedeChecks] using ih hrest
    | check => simp [isCheck] at hxx

/-- The expansion loop only ever adds jobs to the crawl's job set: its
projection onto completion-relevant operations is a list of additions. -/
theorem expandLinks_events (cid : String) (links freshIds : List String)
    (s : FrontierStore) :
    ∃ ids : List String,
      crawlEventsOf (expandLinks cid links freshIds s).1
        = ids.map CrawlEvent.addJob := by
  induction links generalizing freshIds s with
  | nil => exact ⟨[], by simp [expandLinks, crawlEventsOf]⟩
  | cons link rest ih =>
    simp only [expandLinks]
    split
    · obtain ⟨ids, hids⟩ := ih freshIds.tail
        (addCrawlJob cid (freshIds.headD "fresh-id") (lockURL cid link s).2)
      refine ⟨freshIds.headD "fresh-id" :: ids, ?_⟩
      rw [show crawlEventsOf (Effect.lockAttempt cid link true ::
            Effect.enqueueChild link (freshIds.headD "fresh-id") ::
            Effect.addCrawlJob cid (freshIds.headD "fresh-id") ::
            (expandLinks cid rest freshIds.tail
              (addCrawlJob cid (freshIds.headD "fresh-id")
                (lockURL cid link s).2)).1)
          = CrawlEvent.addJob (freshIds.headD "fresh-id") ::
            crawlEventsOf (expandLinks cid rest freshIds.tail
              (addCrawlJob cid (freshIds.headD "fresh-id")
                (lockURL cid link s).2)).1 from rfl, hids]
      simp
    · obtain ⟨ids, hids⟩ := ih freshIds (lockURL cid link s).2
      refine ⟨ids, ?_⟩
      rw [show crawlEventsOf (Effect.lockAttempt cid link false ::
            (expandLinks cid rest freshIds (lockURL cid link s).2).1)
          = crawlEventsOf (expandLinks cid rest freshIds
              (lockURL cid link s).2).1 from rfl, hids]

theorem crawlSection_events_ordered (job : JobData) (env : PJEnv)
    (cid : String) (s : FrontierStore) :
    addsPrecedeChecks (crawlEventsOf (crawlSection job env cid s).2.1) = true := by
  cases hf : env.crawlSectionFault with
  | thrown e => simp [crawlSection, hf, crawlEventsOf, addsPrecedeChecks]
  | ok =>
    simp only [crawlSection, hf]
    split
    · obtain ⟨ids, hids⟩ := expandLinks_events cid env.links env.freshIds
        (addCrawlJobDone cid job.jobId s)
      rw [show crawlEventsOf (Effect.addCrawlJobDone cid job.jobId ::
            (expandLinks cid env.links env.freshIds
              (addCrawlJobDone cid job.jobId s)).1 ++ [Effect.finishCrawl cid])
          = CrawlEvent.markDone job.jobId ::
            crawlEventsOf ((expandLinks cid env.links env.freshIds
              (addCrawlJobDone cid job.jobId s)).1 ++ [Effect.finishCrawl cid])
          from rfl, crawlEventsOf_append, hids]
      rw [show crawlEventsOf [Effect.finishCrawl cid] = [CrawlEvent.check] from rfl]
      rw [show CrawlEvent.markDone job.jobId ::
            (ids.map CrawlEvent.addJob ++ [CrawlEvent.check])
          = (CrawlEvent.markDone job.jobId :: ids.map CrawlEvent.addJob)
            ++ [CrawlEvent.check] from rfl]
      refine addsPrecedeChecks_append ?_ (by simp [addsPrecedeChecks])
      rw [List.all_eq_true]
      intro a ha
      rcases List.mem_cons.mp ha with h1 | h1
      · simp [h1, isCheck]
      · obtain ⟨b, -, hb⟩ := List.mem_map.mp h1
        simp [← hb, isCheck]
    · simp [crawlEventsOf, addsPrecedeChecks]

theorem addsPrecedeChecks_wrap (cs : List Effect)
    (h : addsPrecedeChecks (crawlEventsOf cs) = true) :
    addsPrecedeChecks (crawlEventsOf
      ([Effect.updateProgress, Effect.scrape] ++ cs ++ [Effect.getJobCounts]))
      = true := by
  rw [crawlEventsOf_append, crawlEventsOf_append]
  rw [show crawlEventsOf [Effect.updateProgress, Effect.scrape] = [] from rfl]
  rw [show crawlEventsOf [Effect.getJobCounts] = [] from rfl]
  simpa using h

theorem tryBlock_events_ordered (job : JobData) (env : PJEnv)
    (s : FrontierStore) :
    addsPrecedeChecks (crawlEventsOf (tryBlock job env s).2.1) = true := by
  cases hp : env.pipeline with
  | thrown e =>
    simp [tryBlock, hp, catchBlock_effects, crawlEventsOf, addsPrecedeChecks]
  | ok success message docs =>
    simp only [tryBlock, hp]
    split
    · simp [catchBlock_effects, crawlEventsOf, addsPrecedeChecks]
    · cases hc : job.crawl_id with
      | none =>
        cases hd : env.countsDone <;>
          simp [hd, catchBlock_effects, crawlEventsOf, addsPrecedeChecks]
      | some cid =>
        have hcs := crawlSection_events_ordered job env cid s
        cases hfault : (crawlSection job env cid s).1 with
        | some e =>
          simp only [hfault, catchBlock_effects]
          exact addsPrecedeChecks_wrap _ hcs
        | none =>
          cases hd : env.countsDone with
          | thrown e2 =>
            simp only [hfault, hd, catchBlock_effects]
            exact addsPrecedeChecks_wrap _ hcs
          | ok =>
            simp only [hfault, hd]
            exact addsPrecedeChecks_wrap _ hcs

/-- In any single processJob run, every addition of a child job to the
crawl's job set happens before the run's own completion check: a worker
never misses its own children. -/
theorem processJob_events_ordered (job : JobData) (env : PJEnv)
    (s : FrontierStore) :
    addsPrecedeChecks (crawlEventsOf (processJob job env s).2.1) = true := by
  cases h0 : env.countsStart with
  | thrown e => simp [processJob, h0, crawlEventsOf, addsPrecedeChecks]
  | ok =>
    simp only [processJob, h0]
    split
    · cases h1 : env.countsBlock with
      | thrown e => simp [h1, crawlEventsOf, addsPrecedeChecks]
      | ok =>
        cases h2 : env.blockedMove <;>
          simp [h2, crawlEventsOf, addsPrecedeChecks]
    · have ht := tryBlock_events_ordered job env s
      rw [show crawlEventsOf (Effect.getJobCounts :: (tryBlock job env s).2.1)
          = crawlEventsOf (tryBlock job env s).2.1 from rfl]
      exact ht

theorem all_notExpansion_wrap {cs : List Effect}
    (hcs : cs.all notExpansion = true) :
    (([Effect.updateProgress, Effect.scrape] ++ cs ++ [Effect.getJobCounts]).all
      notExpansion) = true := by
  simp only [List.all_append, List.all_cons, List.all_nil, hcs]
  decide

theorem crawlSection_cancelled (job : JobData) (env : PJEnv) (cid : String)
    (s : FrontierStore) (h : env.crawl.cancelled = true) :
    ((crawlSection job env cid s).2.1.all notExpansion) = true := by
  cases hf : env.crawlSectionFault with
  | thrown e => simp [crawlSection, hf, notExpansion, isExpansionEff]
  | ok => simp [crawlSection, hf, h, notExpansion, isExpansionEff]

theorem tryBlock_cancelled (job : JobData) (env : PJEnv) (s : FrontierStore)
    (h : env.crawl.cancelled = true) :
    ((tryBlock job env s).2.1.all notExpansion) = true := by
  cases hp : env.pipeline with
  | thrown e =>
    simp [tryBlock, hp, catchBlock_effects, notExpansion, isExpansionEff]
  | ok success message docs =>
    simp only [tryBlock, hp]
    split
    · simp [catchBlock_effects, notExpansion, isExpansionEff]
    · cases hc : job.crawl_id with
      | none =>
        cases hd : env.countsDone <;>
          simp [hd, catchBlock_effects, notExpansion, isExpansionEff]
      | some cid =>
        have hcs := crawlSection_cancelled job env cid s h
        cases hfault : (crawlSection job env cid s).1 with
        | some e =>
          simp only [hfault, catchBlock_effects]
          exact all_notExpansion_wrap hcs
        | none =>
          cases hd : env.countsDone with
          | thrown e2 =>
            simp only [hfault, hd, catchBlock_effects]
            exact all_notExpansion_wrap hcs
          | ok =>
            simp only [hfault, hd]
            exact all_notExpansion_wrap hcs

/-- When the crawl's cancelled flag is set, processJob performs no claim
attempt, enqueues no child, and records no new job membership. -/
theorem processJob_cancelled (job : JobData) (env : PJEnv) (s : FrontierStore)
    (h : env.crawl.cancelled = true) :
    ((processJob job env s).2.1.all notExpansion) = true := by
  cases h0 : env.countsStart with
  | thrown e => simp [processJob, h0, notExpansion, isExpansionEff]
  | ok =>
    simp only [processJob, h0]
    split
    · cases h1 : env.countsBlock with
      | thrown e => simp [h1, notExpansion, isExpansionEff]
      | ok =>
        cases h2 : env.blockedMove <;>
          simp [h2, notExpansion, isExpansionEff]
    · have ht := tryBlock_cancelled job env s h
      rw [List.all_cons, ht]
      decide

/-- Every processJobInternal run transitions the job to a terminal state:
it ends in moveToCompleted or in moveToFailed, never in neither. -/
theorem processJobInternal_terminal (job : JobData) (env : PJIEnv)
    (s : FrontierStore) :
    Effect.moveToCompleted ∈ (processJobInternal job env s).2.1
    ∨ Effect.moveToFailed ∈ (processJobInternal job env s).2.1 := by
  obtain ⟨term, hterm, heq, -⟩ := processJobInternal_effects job env s
  rcases hterm with h | h
  · left
    rw [heq, h]
    simp
  · right
    rw [heq, h]
    simp

theorem runClaims_one_winner (c u : String) (ws : List Nat) (s : FrontierStore)
    (h1 : (c, u) ∉ s.claimed) (h2 : ws ≠ []) :
    (winners (runClaims c u ws s).1).length = 1 := by
  cases ws with
  | nil => exact absurd rfl h2
  | cons w rest =>
    simp only [runClaims, lockURL_not_mem c u s h1]
    have hall := runClaims_all_lose c u rest
      { s with claimed := (c, u) :: s.claimed } (by simp)
    simp [winners, List.filter_cons] at hall ⊢
    exact hall

/-- In the expansion loop a child job is enqueued for a URL exactly as often
as a claim attempt for that URL won: losing attempts enqueue nothing. -/
theorem expandLinks_enqueue_iff_win (cid v : String)
    (links freshIds : List String) (s : FrontierStore) :
    enqueueCount v (expandLinks cid links freshIds s).1
      = winCount cid v (expandLinks cid links freshIds s).1 := by
  induction links generalizing freshIds s with
  | nil => simp [expandLinks, enqueueCount, winCount]
  | cons link rest ih =>
    simp only [expandLinks]
    split
    · simp only [enqueueCount, winCount, List.countP_cons] at ih ⊢
      rw [ih freshIds.tail
        (addCrawlJob cid (freshIds.headD "fresh-id") (lockURL cid link s).2)]
      simp
    · simp only [enqueueCount, winCount, List.countP_cons] at ih ⊢
      rw [ih freshIds (lockURL cid link s).2]
      simp

/-- While admission stays denied (and shutdown is not requested), every tick
only sleeps the fixed back-off interval: no job is pulled from the queue. -/
theorem runTicks_denied (inputs : List TickInput) (s : FrontierStore)
    (h : ∀ i ∈ inputs, i.shuttingDown = false ∧ i.canAccept = false) :
    (runTicks inputs s).1
      = inputs.map (fun _ => Effect.sleep cantAcceptConnectionInterval) := by
  induction inputs generalizing s with
  | nil => simp [runTicks]
  | cons i rest ih =>
    obtain ⟨h1, h2⟩ := h i (by simp)
    have hrest : ∀ j ∈ rest, j.shuttingDown = false ∧ j.canAccept = false :=
      fun j hj => h j (by simp [hj])
    simp [runTicks, workerTick, h1, h2, ih _ hrest]

theorem processJob_blocked_no_scrape (job : JobData) (env : PJEnv)
    (s : FrontierStore) (hb : blockedURL job.url = true) :
    Effect.scrape ∉ (processJob job env s).2.1 := by
  cases h0 : env.countsStart with
  | thrown e => simp [processJob, h0]
  | ok =>
    simp only [processJob, h0, hb]
    cases h1 : env.countsBlock with
    | thrown e => simp [h1]
    | ok => cases h2 : env.blockedMove <;> simp [h2]

theorem processJob_blocked_result (job : JobData) (env : PJEnv)
    (s : FrontierStore) (hb : blockedURL job.url = true)
    (h0 : env.countsStart = QOutcome.ok) (h1 : env.countsBlock = QOutcome.ok)
    (h2 : env.blockedMove = QOutcome.ok) :
    (processJob job env s).1 = Except.ok ⟨false, [], blockedMsg⟩
    ∧ Effect.moveToCompleted ∈ (processJob job env s).2.1 := by
  simp [processJob, h0, hb, h1, h2]

/-- When processJob resolved, processJobInternal moves the job to completed
and its moveToFailed branch is not taken. -/
theorem processJobInternal_ok_completed (job : JobData) (env : PJIEnv)
    (s : FrontierStore) (r : ProcessResult)
    (h : (processJob job env.pj s).1 = Except.ok r) :
    Effect.moveToFailed ∉ (processJobInternal job env s).2.1
    ∧ Effect.moveToCompleted ∈ (processJobInternal job env s).2.1 := by
  obtain ⟨term, hterm, heq, hiff⟩ := processJobInternal_effects job env s
  have hterm2 : term = Effect.moveToCompleted := by
    rcases hterm with h1 | h1
    · exact h1
    · exfalso
      obtain ⟨e, he⟩ := hiff.mp h1
      rw [h] at he
      exact Except.noConfusion he
  subst hterm2
  constructor
  · rw [heq]
    intro hmem
    have hpj := not_mem_of_emittable (processJob_all_emittable job env.pj s)
      (e := Effect.moveToFailed) (by decide)
    simp at hmem
    exact hpj hmem
  · rw [heq]
    simp

/-- When processJob rejected, processJobInternal marks the job failed exactly
once (and does not re-invoke the handler: the trace is a single pass). -/
theorem processJobInternal_error_moveFailed_once (job : JobData) (env : PJIEnv)
    (s : FrontierStore) (e : String)
    (h : (processJob job env.pj s).1 = Except.error e) :
    (processJobInternal job env s).2.1.countP isMoveFailed = 1 := by
  obtain ⟨term, hterm, heq, hiff⟩ := processJobInternal_effects job env s
  have hterm2 : term = Effect.moveToFailed := hiff.mpr ⟨e, h⟩
  subst hterm2
  rw [heq]
  have hz : (processJob job env.pj s).2.1.countP isMoveFailed = 0 :=
    countP_zero_of_emittable (processJob_all_emittable job env.pj s)
      (fun e2 he2 => by
        cases e2 <;> first
          | rfl
          | simp [pjEmittable] at he2)
  simp [List.countP_cons, List.countP_append, hz, isMoveFailed]

/-- C1: among any number of concurrent claim attempts (lockURL calls made
during link expansion) for the same (crawl, URL) pair starting from a store
in which the pair is unclaimed, exactly one attempt returns true; and in the
expansion loop a child job is enqueued exactly for the winning attempts, so
every losing attempt returns false and enqueues nothing. -/
theorem C1_lockURL_exactly_one_winner (c u : String) (ws : List Nat)
    (s : FrontierStore) (h1 : (c, u) ∉ s.claimed) (h2 : ws ≠ []) :
    (winners (runClaims c u ws s).1).length = 1
    ∧ ∀ (cid v : String) (links freshIds : List String) (st : FrontierStore),
        enqueueCount v (expandLinks cid links freshIds st).1
          = winCount cid v (expandLinks cid links freshIds st).1 :=
  ⟨runClaims_one_winner c u ws s h1 h2,
   fun cid v links freshIds st =>
     expandLinks_enqueue_iff_win cid v links freshIds st⟩

/-- Witness for C1: three workers race to claim one URL of crawl "c" on an
empty store; exactly one attempt wins. -/
theorem C1_lockURL_exactly_one_winner_witness :
    (winners (runClaims "c" "https://example.com/u" [1, 2, 3] s0Empty).1).length
      = 1 :=
  (C1_lockURL_exactly_one_winner "c" "https://example.com/u" [1, 2, 3] s0Empty
    (by simp [s0Empty]) (by simp)).1

/-- C2 as stated is false: worker A's own completion-relevant operations for
the concrete run of jbA project to [markDone "A", addJob "n1", check]; when a
second worker's check is interleaved right after the markDone (trace trC2),
that check at position 1 reports the crawl finished although job "n1" -
added to the job set later in the very expansion that was in flight - is
outside the done subset at that moment. -/
theorem C2_midexpansion_check_reports_finished :
    crawlEventsOf (processJob jbA envA s0A).2.1
      = [CrawlEvent.markDone "A", CrawlEvent.addJob "n1", CrawlEvent.check]
    ∧ IsInterleaving
        [CrawlEvent.markDone "A", CrawlEvent.addJob "n1", CrawlEvent.check]
        [CrawlEvent.check] trC2
    ∧ ¬ C2TraceProperty stC2 trC2 := by
  refine ⟨rfl, ?_, ?_⟩
  · exact .left (.right (.left (.left .nil)))
  · intro h
    have hx := h 1 rfl (by decide) "n1" (by decide)
    exact absurd hx (by decide)

/-- C2 amended: the modelled completion check is snapshot-correct in both
directions - whenever it reports finished, every job added to the job set up
to that point is in the done subset, and conversely, once every initial job
and every added job is in the done subset it does report finished (the
crawl is reported finished once every added job is done) - and in any
single processJob run the worker's own completion check is issued only after
all of its child-job additions; the only clause dropped is that a check
interleaved from another worker mid-expansion cannot report completion, as
the counterexample forces. -/
theorem C2_snapshot_and_worker_order :
    (∀ (st : CrawlSetState) (tr : List CrawlEvent),
        crawlFinishedB (stateAfter st tr) = true →
        ∀ j, j ∈ addedIn tr → (stateAfter st tr).done.contains j = true)
    ∧ (∀ (st : CrawlSetState) (tr : List CrawlEvent),
        (∀ j, j ∈ st.jobs → (stateAfter st tr).done.contains j = true) →
        (∀ j, j ∈ addedIn tr → (stateAfter st tr).done.contains j = true) →
        crawlFinishedB (stateAfter st tr) = true)
    ∧ ∀ (job : JobData) (env : PJEnv) (s : FrontierStore),
        addsPrecedeChecks (crawlEventsOf (processJob job env s).2.1) = true :=
  ⟨fun st tr h => crawlFinished_snapshot st tr h,
   fun st tr h0 h1 => crawlFinished_complete st tr h0 h1,
   fun job env s => processJob_events_ordered job env s⟩

/-- Witness for C2 amended, at the trace where the child is eventually done
and at the concrete jbA run. -/
theorem C2_snapshot_and_worker_order_witness :
    (stateAfter stC2 trDoneC2).done.contains "n1" = true
    ∧ crawlFinishedB (stateAfter stC2 trDoneC2) = true
    ∧ addsPrecedeChecks (crawlEventsOf (processJob jbA envA s0A).2.1) = true :=
  ⟨C2_snapshot_and_worker_order.1 stC2 trDoneC2 (by decide) "n1" (by decide),
   C2_snapshot_and_worker_order.2.1 stC2 trDoneC2 (by decide) (by decide),
   C2_snapshot_and_worker_order.2.2 jbA envA s0A⟩

/-- C3: when the crawl's cancelled flag is set before the expansion check
point, processJob performs zero claim attempts, enqueues zero children and
records no new job membership, while the in-flight job itself still runs to
a terminal queue transition (completed or failed) instead of being aborted
by the worker. -/
theorem C3_cancelled_suppresses_expansion (job : JobData) (env : PJIEnv)
    (s : FrontierStore) (h : env.pj.crawl.cancelled = true) :
    ((processJob job env.pj s).2.1.all notExpansion) = true
    ∧ (Effect.moveToCompleted ∈ (processJobInternal job env s).2.1
       ∨ Effect.moveToFailed ∈ (processJobInternal job env s).2.1) :=
  ⟨processJob_cancelled job env.pj s h, processJobInternal_terminal job env s⟩

/-- Witness for C3 at the concrete cancelled run of jbA. -/
theorem C3_cancelled_suppresses_expansion_witness :
    ((processJob jbA envCancelled s0A).2.1.all notExpansion) = true
    ∧ (Effect.moveToCompleted ∈ (processJobInternal jbA envCancelledI s0A).2.1
       ∨ Effect.moveToFailed ∈ (processJobInternal jbA envCancelledI s0A).2.1) :=
  C3_cancelled_suppresses_expansion jbA envCancelledI s0A rfl

/-- C4 as stated is false on the period: the renewal timer does not fire at
roughly half the lock TTL - with the source's default configuration it fires
at one quarter of it (15000 ms against the 60000 ms lock duration, which
also equals the per-firing extension time). -/
theorem C4_renewal_period_not_half_ttl :
    jobLockExtendInterval * 2 ≠ lockDuration
    ∧ jobLockExtendInterval * 4 = lockDuration
    ∧ jobLockExtendInterval * 4 = jobLockExtensionTime := by
  refine ⟨?_, rfl, rfl⟩
  decide

/-- C4 amended: for every job the worker acquires, processJobInternal starts
the background lock-renewal timer first (period jobLockExtendInterval,
extending the lock by jobLockExtensionTime at each firing) and clears it as
its very last action on every path, success and failure alike; under the
default configuration the firing period is one quarter of the lock TTL, not
roughly half. -/
theorem C4_renewal_timer_lifecycle :
    (∀ (job : JobData) (env : PJIEnv) (s : FrontierStore),
        ∃ mid : List Effect,
          (processJobInternal job env s).2.1
            = Effect.setRenewTimer jobLockExtendInterval jobLockExtensionTime ::
              mid ++ [Effect.clearRenewTimer])
    ∧ jobLockExtendInterval * 4 = lockDuration
    ∧ ∀ (job : JobData) (env : PJIEnv) (s : FrontierStore),
        Effect.setRenewTimer jobLockExtendInterval jobLockExtensionTime
          ∈ (workerTick ⟨false, true, some (job, env)⟩ s).1 := by
  refine ⟨?_, rfl, ?_⟩
  · intro job env s
    obtain ⟨term, -, heq, -⟩ := processJobInternal_effects job env s
    refine ⟨Effect.addJobPriority job.team_id job.jobId ::
      ((processJob job env.pj s).2.1 ++ [term] ++
        [Effect.deleteJobPriority job.team_id job.jobId]), ?_⟩
    rw [heq]
    simp
  · intro job env s
    obtain ⟨term, -, heq, -⟩ := processJobInternal_effects job env s
    simp [workerTick, heq]

/-- C5: on every execution path of processJobInternal the tenant's in-flight
priority counter is incremented exactly once (addJobPriority) and
decremented exactly once (deleteJobPriority), whatever the outcomes of the
job handler and of the terminal queue transitions - including when the
terminal transition itself throws. -/
theorem C5_priority_calls_balanced (job : JobData) (env : PJIEnv)
    (s : FrontierStore) :
    (processJobInternal job env s).2.1.countP isAddPrio = 1
    ∧ (processJobInternal job env s).2.1.countP isDelPrio = 1 := by
  obtain ⟨term, hterm, heq, -⟩ := processJobInternal_effects job env s
  have hza : (processJob job env.pj s).2.1.countP isAddPrio = 0 :=
    countP_zero_of_emittable (processJob_all_emittable job env.pj s)
      (fun e2 he2 => by
        cases e2 <;> first
          | rfl
          | simp [pjEmittable] at he2)
  have hzd : (processJob job env.pj s).2.1.countP isDelPrio = 0 :=
    countP_zero_of_emittable (processJob_all_emittable job env.pj s)
      (fun e2 he2 => by
        cases e2 <;> first
          | rfl
          | simp [pjEmittable] at he2)
  rcases hterm with h | h <;> subst h <;> rw [heq] <;>
    simp [List.countP_cons, List.countP_append, hza, hzd, isAddPrio, isDelPrio]

/-- C6: on every scheduling tick on which admission is denied (and shutdown
is not requested) the worker dequeues nothing and sleeps the bounded fixed
back-off interval; over any run of such ticks, zero jobs are pulled. -/
theorem C6_denied_ticks_pull_no_jobs (inputs : List TickInput)
    (s : FrontierStore)
    (h : ∀ i ∈ inputs, i.shuttingDown = false ∧ i.canAccept = false) :
    (runTicks inputs s).1
      = inputs.map (fun _ => Effect.sleep cantAcceptConnectionInterval)
    ∧ Effect.getNextJob ∉ (runTicks inputs s).1 := by
  have heq := runTicks_denied inputs s h
  refine ⟨heq, ?_⟩
  rw [heq]
  intro hmem
  obtain ⟨i, -, hi⟩ := List.mem_map.mp hmem
  exact Effect.noConfusion hi

/-- Witness for C6 over three consecutively denied ticks. -/
theorem C6_denied_ticks_pull_no_jobs_witness :
    (runTicks [deniedTick, deniedTick, deniedTick] s0Empty).1
      = [Effect.sleep cantAcceptConnectionInterval,
         Effect.sleep cantAcceptConnectionInterval,
         Effect.sleep cantAcceptConnectionInterval]
    ∧ Effect.getNextJob ∉ (runTicks [deniedTick, deniedTick, deniedTick]
        s0Empty).1 :=
  C6_denied_ticks_pull_no_jobs [deniedTick, deniedTick, deniedTick] s0Empty
    (by simp [deniedTick])

/-- C7 as stated is false on the terminal state: for a concrete denylisted
job the scrape collaborator is never invoked and the fixed blocked failure
result is produced, but the job is transitioned to completed
(job.moveToCompleted, queue-worker.ts line 179), not to a failed terminal
state - moveToFailed never appears in the trace. -/
theorem C7_blocked_job_completed_not_failed :
    blockedURL jbBlocked.url = true
    ∧ Effect.scrape ∉ (processJob jbBlocked envOk s0Empty).2.1
    ∧ (processJob jbBlocked envOk s0Empty).1
        = Except.ok ⟨false, [], blockedMsg⟩
    ∧ Effect.moveToFailed ∉ (processJobInternal jbBlocked envOkI s0Empty).2.1
    ∧ Effect.moveToCompleted ∈ (processJob jbBlocked envOk s0Empty).2.1 := by
  refine ⟨rfl, ?_, rfl, ?_, ?_⟩ <;> decide

/-- C7 amended: for every denylisted job the scrape collaborator is never
invoked; when the preceding telemetry and the completed transition return,
the result is the fixed blocked failure result (success = false, empty docs,
fixed message) and the job is transitioned to the terminal completed state
carrying it - not to a failed state. -/
theorem C7_blocked_short_circuit (job : JobData) (env : PJIEnv)
    (s : FrontierStore) (hb : blockedURL job.url = true) :
    Effect.scrape ∉ (processJob job env.pj s).2.1
    ∧ (env.pj.countsStart = QOutcome.ok → env.pj.countsBlock = QOutcome.ok →
        env.pj.blockedMove = QOutcome.ok →
        (processJob job env.pj s).1 = Except.ok ⟨false, [], blockedMsg⟩
        ∧ Effect.moveToCompleted ∈ (processJob job env.pj s).2.1
        ∧ Effect.moveToFailed ∉ (processJobInternal job env s).2.1) := by
  refine ⟨processJob_blocked_no_scrape job env.pj s hb, ?_⟩
  intro h0 h1 h2
  obtain ⟨hres, hmc⟩ := processJob_blocked_result job env.pj s hb h0 h1 h2
  exact ⟨hres, hmc, (processJobInternal_ok_completed job env s _ hres).1⟩

/-- Witness for C7 amended at the concrete denylisted job. -/
theorem C7_blocked_short_circuit_witness :
    Effect.scrape ∉ (processJob jbBlocked envOk s0Empty).2.1
    ∧ (envOk.countsStart = QOutcome.ok → envOk.countsBlock = QOutcome.ok →
        envOk.blockedMove = QOutcome.ok →
        (processJob jbBlocked envOk s0Empty).1
          = Except.ok ⟨false, [], blockedMsg⟩
        ∧ Effect.moveToCompleted ∈ (processJob jbBlocked envOk s0Empty).2.1
        ∧ Effect.moveToFailed ∉
            (processJobInternal jbBlocked envOkI s0Empty).2.1) :=
  C7_blocked_short_circuit jbBlocked envOkI s0Empty rfl

/-- C8: when the job handler (processJob) throws, processJobInternal marks
the job failed via the queue's moveToFailed exactly once, and the worker
tick that received the job invokes the handler a single time before
sleeping - the worker itself never re-runs the job. -/
theorem C8_thrown_handler_marked_failed (job : JobData) (env : PJIEnv)
    (s : FrontierStore) (e : String)
    (h : (processJob job env.pj s).1 = Except.error e) :
    (processJobInternal job env s).2.1.countP isMoveFailed = 1
    ∧ (workerTick ⟨false, true, some (job, env)⟩ s).1
        = Effect.getNextJob :: (processJobInternal job env s).2.1
            ++ [Effect.sleep gotJobInterval] := by
  refine ⟨processJobInternal_error_moveFailed_once job env s e h, ?_⟩
  simp [workerTick]

/-- Witness for C8 at a concrete run whose handler throws (the unprotected
initial telemetry call rejects). -/
theorem C8_thrown_handler_marked_failed_witness :
    (processJobInternal jbPlain envCountsThrowI s0Empty).2.1.countP
        isMoveFailed = 1
    ∧ (workerTick ⟨false, true, some (jbPlain, envCountsThrowI)⟩ s0Empty).1
        = Effect.getNextJob ::
            (processJobInternal jbPlain envCountsThrowI s0Empty).2.1
            ++ [Effect.sleep gotJobInterval] :=
  C8_thrown_handler_marked_failed jbPlain envCountsThrowI s0Empty
    "ECONNREFUSED" rfl

/-- C9: the claim is right and the code has a slip: every path of
scrapeWithPlaywright other than the timeout path resolves with a typed
result, but on the ECONNABORTED (timeout) path the catch block references
`waitParam`, which is const-declared inside the try block and out of scope
in the catch block, so that path throws a ReferenceError out to the caller
instead of degrading to an empty-content result. -/
theorem C9_timeout_path_throws_reference_error :
    scrapeWithPlaywright PlaywrightOutcome.econnaborted
      = Except.error (JsRuntimeError.referenceError "waitParam")
    ∧ ∀ o, o ≠ PlaywrightOutcome.econnaborted →
        scrapeResolves (scrapeWithPlaywright o) = true := by
  refine ⟨rfl, ?_⟩
  intro o ho
  cases o with
  | ok200 parse => cases parse <;> rfl
  | okNon200 status => rfl
  | econnaborted => exact absurd rfl ho
  | errResponse status msg => rfl
  | errRequest code msg => rfl
  | errOther msg => rfl

/-- Witness for C9 at a concrete non-timeout outcome. -/
theorem C9_timeout_path_throws_reference_error_witness :
    scrapeResolves (scrapeWithPlaywright (PlaywrightOutcome.errOther
      "socket hang up")) = true :=
  C9_timeout_path_throws_reference_error.2 _ (by decide)

